import Mathlib

/-!
# Verification of the FrankeNet semi-supervised DEV-regularized MLP builder

Shallow embedding of `LayerNet/theano_port/FrankeNet.py`.

Modelling choices:
* Matrices are total functions `ℕ → ℕ → ℝ`; every tensor operation carries its
  explicit dimensions and sums over `Finset.range`.
* Theano shared variables (the mutable parameters shared between the raw
  network, its dropout clones and the DAE twins) are modelled by a `Store`
  mapping parameter identifiers to current values.  A layer records *which*
  parameter it reads (a `WExpr`), and all derived tensors are functions of the
  store, so mutating a shared parameter is visible in every graph that
  references it — exactly the Python object-sharing semantics.
* Dropout masks are sampled externally by Theano's random streams; each
  droppy layer carries the mask drawn for it as an explicit argument.
* Real division by zero has no defined value in the floating-point graph
  (it evaluates to inf/nan), so the one division whose denominator depends on
  run-time data — the semi-supervised mask count in `_dev_loss` — is modelled
  with `Option ℝ`, `none` standing for the undefined result.
* The classification loss object `MCL2HingeSS` is an external collaborator
  and is kept abstract (a parameter of the network constructor).
-/

noncomputable section

namespace FrankeNet

/-- Matrices: entry `x i j` is row `i`, column `j`. -/
abbrev Mat := ℕ → ℕ → ℝ

/-- A store of shared parameters: parameter id → current value.  Bias vectors
are stored as row 0 of a matrix. -/
abbrev Store := ℕ → Mat

/-- The weight handed to a layer: either a shared parameter itself or the
symbolic transpose `W.T` of a shared parameter (used by the DAE decoders). -/
inductive WExpr where
  | ref (id : ℕ)
  | transpRef (id : ℕ)
deriving DecidableEq

/-- The shared parameter underlying a weight expression. -/
def WExpr.baseId : WExpr → ℕ
  | .ref i => i
  | .transpRef i => i

/-- Read a weight expression out of the store. -/
def WExpr.eval (s : Store) : WExpr → Mat
  | .ref i => s i
  | .transpRef i => fun a b => s i b a

/-- `row_normalize` (FrankeNet.py lines 15-18): divide each row of `x` by
`sqrt(sum(x^2, axis=1) + 1e-6)`.  `d` is the row length. -/
def rowNormalize (d : ℕ) (x : Mat) : Mat :=
  fun i j => x i j / Real.sqrt ((∑ k ∈ Finset.range d, (x i k) ^ 2) + 1e-6)

/-- `T.nnet.sigmoid`. -/
def sigmoid (x : ℝ) : ℝ := 1 / (1 + Real.exp (-x))

/-- `T.nnet.binary_crossentropy(output, target)`:
`-(target * log(output) + (1 - target) * log(1 - output))`. -/
def bce (o t : ℝ) : ℝ := -(t * Real.log o + (1 - t) * Real.log (1 - o))

/-- The `p` argument passed to `srng.binomial` when sampling a dropout mask in
`HiddenLayer._drop_from_input` (line 78): `p = 1 - p` because ones in the mask
mean "keep" and the layer's rate is the probability of dropping. -/
def dropKeepProb (drop_rate : ℝ) : ℝ := 1 - drop_rate

/-- A constructed `HiddenLayer` (FrankeNet.py lines 20-81).  The fields record
what `__init__` stores: the supplied (pre-drop) input, the weight expression
and bias parameter id (shared-variable references), the dropout rate, and the
mask drawn for this layer by `_drop_from_input` (unused when the rate is below
the 0.01 threshold). -/
structure HLayer where
  drop_rate : ℝ
  Wexpr : WExpr
  bref : ℕ
  nIn : ℕ
  nOut : ℕ
  useBias : Bool
  act : Option (ℝ → ℝ)
  givenInput : Store → Mat
  mask : Mat

instance : Inhabited HLayer :=
  ⟨{ drop_rate := 0, Wexpr := .ref 0, bref := 0, nIn := 0, nOut := 0,
     useBias := true, act := none, givenInput := fun _ _ _ => 0,
     mask := fun _ _ => 0 }⟩

namespace HLayer

/-- `self.input` (lines 27-30): the given input, or the given input times the
sampled dropout mask when the rate reaches the 0.01 threshold. -/
def selfInput (l : HLayer) (s : Store) : Mat :=
  if l.drop_rate < 0.01 then l.givenInput s
  else fun i j => l.givenInput s i j * l.mask i j

/-- `self.W` (line 47): the stored weight, rescaled by `1/(1-drop_rate)` when
dropping ("inverted dropout"). -/
def W (l : HLayer) (s : Store) : Mat :=
  if l.drop_rate < 0.01 then l.Wexpr.eval s
  else fun i j => (1 / (1 - l.drop_rate)) * l.Wexpr.eval s i j

/-- `self.b`. -/
def b (l : HLayer) (s : Store) : ℕ → ℝ := fun j => s l.bref 0 j

/-- `self.linear_output` (lines 51-54): `T.dot(self.input, self.W) + self.b`
(bias only when `use_bias`). -/
def linear_output (l : HLayer) (s : Store) : Mat :=
  fun i j =>
    (∑ k ∈ Finset.range l.nIn, l.selfInput s i k * l.W s k j) +
      (if l.useBias then l.b s j else 0)

/-- `self.output` (lines 57-60): the activation applied to the linear output,
or the linear output itself when the activation is `None`. -/
def output (l : HLayer) (s : Store) : Mat :=
  match l.act with
  | none => l.linear_output s
  | some f => fun i j => f (l.linear_output s i j)

/-- `self.act_l2_sum` (line 63): `T.sum(output**2) / output.size` for a batch
of `n` rows. -/
def act_l2_sum (l : HLayer) (s : Store) (n : ℕ) : ℝ :=
  (∑ i ∈ Finset.range n, ∑ j ∈ Finset.range l.nOut, (l.output s i j) ^ 2) /
    ((n : ℝ) * (l.nOut : ℝ))

end HLayer

/-! ## The DEV regularizer `_dev_loss` (lines 211-238) -/

/-- One entry of the semi-supervised mask `T.eq(Y, 0)`: 1 where the label is
the unlabeled marker 0, else 0.  Labels are integers. -/
def ssMask (y : ℕ → ℤ) (i : ℕ) : ℝ := if y i = 0 then 1 else 0

/-- The number of unlabeled entries among the first `n` labels (the number of
ones in the semi-supervised mask). -/
def unlabeledCount (y : ℕ → ℤ) (n : ℕ) : ℕ :=
  ((Finset.range n).filter (fun i => y i = 0)).card

/-- `var_fun` (line 222): `T.sum(((x1 - x2) * ss_mask)**2) / T.sum(ss_mask)`
with the `(n,1)`-shaped mask broadcast across the `d` feature columns.  The
division is undefined (`none`) when the mask is all zero. -/
def varFun (n d : ℕ) (y : ℕ → ℤ) (x1 x2 : Mat) : Option ℝ :=
  if unlabeledCount y n = 0 then none
  else some
    ((∑ i ∈ Finset.range n, ∑ j ∈ Finset.range d,
        ((x1 i j - x2 i j) * ssMask y i) ^ 2) /
      (∑ i ∈ Finset.range n, ssMask y i))

/-- `cent_fun` (lines 226-227):
`T.sum(binary_crossentropy(sigmoid(xo), sigmoid(xt))) / xt.shape[0]`.
Note: no semi-supervised mask is applied here.  Undefined on an empty batch. -/
def centFun (n d : ℕ) (xt xo : Mat) : Option ℝ :=
  if n = 0 then none
  else some
    ((∑ i ∈ Finset.range n, ∑ j ∈ Finset.range d,
        bce (sigmoid (xo i j)) (sigmoid (xt i j))) / (n : ℝ))

/-- `SS_DEV_NET._dev_loss` (lines 211-238): select the transform by
`dev_type` and compute the masked variance (or, for type 4, the unmasked mean
binary cross-entropy). -/
def devLoss (n d : ℕ) (X1 X2 : Mat) (y : ℕ → ℤ) (dev_type : ℤ) : Option ℝ :=
  if dev_type = 1 then varFun n d y (rowNormalize d X1) (rowNormalize d X2)
  else if dev_type = 2 then
    varFun n d y (fun i j => Real.tanh (X1 i j)) (fun i j => Real.tanh (X2 i j))
  else if dev_type = 3 then
    varFun n d y (fun i j => sigmoid (X1 i j)) (fun i j => sigmoid (X2 i j))
  else if dev_type = 4 then centFun n d X1 X2
  else varFun n d y X1 X2

/-- The DEV transform table as the spec states it (selector → transform
applied to both representations before the masked variance): identity for
selector 0 and any selector outside 1-4, row-L2-normalization for 1,
hyperbolic tangent for 2, sigmoid for 3. -/
def devTransform (d : ℕ) (t : ℤ) (x : Mat) : Mat :=
  if t = 1 then rowNormalize d x
  else if t = 2 then fun i j => Real.tanh (x i j)
  else if t = 3 then fun i j => sigmoid (x i j)
  else x

/-- The row normalizer as the spec's words describe it: each row divided by
its L2 norm *plus* the additive epsilon `1e-6`.  (For comparison with the
implemented `rowNormalize`, which adds the epsilon under the square root.) -/
def rowNormalizeSpec (d : ℕ) (x : Mat) : Mat :=
  fun i j => x i j / (Real.sqrt (∑ k ∈ Finset.range d, (x i k) ^ 2) + 1e-6)

/-! ## The network constructor `SS_DEV_NET.__init__` (lines 90-182) -/

/-- The `params` dict handed to `SS_DEV_NET.__init__`.  `dev_mix_rate` is an
optional key: the constructor silently defaults it to `0.0` (lines 119-122). -/
structure NetParams where
  layer_sizes : List ℕ
  lam_l2a : ℝ
  use_bias : Bool
  dev_clones : ℕ
  dev_types : List ℤ
  dev_lams : List ℝ
  dev_mix_rate : Option ℝ

/-- The layer-construction loop (lines 135-158).  `sizes` is
`zip(layer_sizes, layer_sizes[1:])`, `t` the current position (fresh shared
parameters for position `t` get ids `2*t` for the weight and `2*t+1` for the
bias), `rawIn` the pending raw-chain input, `dropIns i` the pending input of
clone `i`, and `cloneMasks i t` the dropout mask drawn for clone `i`'s layer
at position `t`.  Returns, per position, the raw layer paired with the list
of clone layers; the clone layers share the raw layer's weight and bias ids
and use rate 0.2 at the first position, 0.5 afterwards. -/
def buildLayers (act : Option (ℝ → ℝ)) (useBias : Bool) (dcCount : ℕ)
    (cloneMasks : ℕ → ℕ → Mat) :
    List (ℕ × ℕ) → ℕ → (Store → Mat) → (ℕ → Store → Mat) →
      List (HLayer × List HLayer)
  | [], _, _, _ => []
  | (nIn, nOut) :: rest, t, rawIn, dropIns =>
    let rawLayer : HLayer :=
      { drop_rate := 0, Wexpr := .ref (2 * t), bref := 2 * t + 1,
        nIn := nIn, nOut := nOut, useBias := useBias, act := act,
        givenInput := rawIn, mask := fun _ _ => 1 }
    let clones : List HLayer := (List.range dcCount).map (fun i =>
      { drop_rate := if t = 0 then 0.2 else 0.5,
        Wexpr := .ref (2 * t), bref := 2 * t + 1,
        nIn := nIn, nOut := nOut, useBias := useBias, act := act,
        givenInput := dropIns i, mask := cloneMasks i t })
    (rawLayer, clones) ::
      buildLayers act useBias dcCount cloneMasks rest (t + 1)
        (fun s => rawLayer.output s)
        (fun i s => (clones.getD i default).output s)

/-- `_construct_dae_layers` (lines 240-279), the layer-construction part.
For every hidden layer `i` except the last: an encoder reusing raw layer
`i`'s weight and bias on a masking-noised copy of that layer's input, a raw
decoder (rate 0) on the transposed weight with a freshly allocated bias
(id `2*L + i`), and an sde decoder (rate 0.5) on the same transposed weight
reusing the raw decoder's bias.  Returns `(raw_dae_layers, sde_dae_layers)`
as [encoder, decoder] pairs. -/
def mkDAEunit (act : Option (ℝ → ℝ)) (mlp : List HLayer) (L : ℕ)
    (daeMasks sdeDecMasks : ℕ → Mat) (i : ℕ) : HLayer × HLayer × HLayer :=
  let lay := mlp.getD i default
  let encoder : HLayer :=
    { drop_rate := 0, Wexpr := lay.Wexpr, bref := lay.bref,
      nIn := lay.nIn, nOut := lay.nOut, useBias := true, act := act,
      givenInput := fun s a b => lay.selfInput s a b * daeMasks i a b,
      mask := fun _ _ => 1 }
  let rawDecoder : HLayer :=
    { drop_rate := 0, Wexpr := .transpRef lay.Wexpr.baseId, bref := 2 * L + i,
      nIn := lay.nOut, nOut := lay.nIn, useBias := true, act := act,
      givenInput := fun s => encoder.output s, mask := fun _ _ => 1 }
  let sdeDecoder : HLayer :=
    { drop_rate := 0.5, Wexpr := .transpRef lay.Wexpr.baseId, bref := 2 * L + i,
      nIn := lay.nOut, nOut := lay.nIn, useBias := true, act := act,
      givenInput := fun s => encoder.output s, mask := sdeDecMasks i }
  (encoder, rawDecoder, sdeDecoder)

def mkDAE (act : Option (ℝ → ℝ)) (mlp : List HLayer) (L : ℕ)
    (daeMasks sdeDecMasks : ℕ → Mat) :
    List (HLayer × HLayer) × List (HLayer × HLayer) :=
  ((List.range (L - 1)).map (fun i =>
      ((mkDAEunit act mlp L daeMasks sdeDecMasks i).1,
       (mkDAEunit act mlp L daeMasks sdeDecMasks i).2.1)),
   (List.range (L - 1)).map (fun i =>
      ((mkDAEunit act mlp L daeMasks sdeDecMasks i).1,
       (mkDAEunit act mlp L daeMasks sdeDecMasks i).2.2)))

/-- The attributes of a constructed `SS_DEV_NET` that the loss composition
reads.  The classification losses come from the external `MCL2HingeSS`
collaborator and are opaque functions of the store and the labels. -/
structure Net where
  mlp_layers : List HLayer
  dev_clones : List (List HLayer)
  raw_dae_layers : List (HLayer × HLayer)
  sde_dae_layers : List (HLayer × HLayer)
  dev_types : List ℤ
  dev_lams : List ℝ
  dev_lams_sum : ℝ
  dev_mix_rate : ℝ
  lam_l2a : ℝ
  layer_count : ℕ
  raw_class_loss : Store → (ℕ → ℤ) → ℝ
  sde_class_loss : Store → (ℕ → ℤ) → ℝ

/-- `SS_DEV_NET.__init__` (lines 90-182).  `input` is the external input
tensor, `mcl` the external `MCL2HingeSS` loss component (applied to the last
raw layer and to clone 0's last layer), and the mask arguments are the
dropout/masking-noise draws made during construction. -/
def mkNet (p : NetParams) (input : Mat)
    (cloneMasks : ℕ → ℕ → Mat) (daeMasks sdeDecMasks : ℕ → Mat)
    (mcl : HLayer → Store → (ℕ → ℤ) → ℝ) : Net :=
  let act : Option (ℝ → ℝ) := some sigmoid
  let wms := p.layer_sizes.zip p.layer_sizes.tail
  let built := buildLayers act p.use_bias p.dev_clones cloneMasks wms 0
    (fun _ => input) (fun _ _ => input)
  let mlp := built.map Prod.fst
  let L := mlp.length
  let dcs := (List.range p.dev_clones).map
    (fun i => built.map (fun pr => pr.2.getD i default))
  let daes := mkDAE act mlp L daeMasks sdeDecMasks
  { mlp_layers := mlp
    dev_clones := dcs
    raw_dae_layers := daes.1
    sde_dae_layers := daes.2
    dev_types := p.dev_types
    dev_lams := p.dev_lams
    dev_lams_sum := p.dev_lams.sum
    dev_mix_rate := p.dev_mix_rate.getD 0
    lam_l2a := p.lam_l2a
    layer_count := L
    raw_class_loss := mcl (mlp.getD (L - 1) default)
    sde_class_loss := mcl ((dcs.getD 0 []).getD (L - 1) default) }

namespace Net

/-- `self.mlp_layers[i]`. -/
def rawLayer (net : Net) (i : ℕ) : HLayer := net.mlp_layers.getD i default

/-- `self.dev_clones[c][i]`. -/
def cloneLayer (net : Net) (c i : ℕ) : HLayer :=
  (net.dev_clones.getD c []).getD i default

/-- `self.raw_reg_loss` (line 173):
`lam_l2a * T.sum([lay.act_l2_sum for lay in self.mlp_layers])`. -/
def raw_reg_loss (net : Net) (s : Store) (n : ℕ) : ℝ :=
  net.lam_l2a * (net.mlp_layers.map (fun lay => lay.act_l2_sum s n)).sum

/-- `self.sde_reg_loss` (line 181): the same over clone 0's layers. -/
def sde_reg_loss (net : Net) (s : Store) (n : ℕ) : ℝ :=
  net.lam_l2a *
    ((net.dev_clones.getD 0 []).map (fun lay => lay.act_l2_sum s n)).sum

/-- The raw-side representation compared at layer `i` in `dev_cost`
(lines 191-197): the post-activation output for every layer except the last,
whose pre-activation linear output is used instead. -/
def devX1 (net : Net) (s : Store) (i : ℕ) : Mat :=
  if i < net.layer_count - 1 then (net.rawLayer i).output s
  else (net.rawLayer i).linear_output s

/-- The clone-0 representation compared at layer `i` in `dev_cost`. -/
def devX2 (net : Net) (s : Store) (i : ℕ) : Mat :=
  if i < net.layer_count - 1 then (net.cloneLayer 0 i).output s
  else (net.cloneLayer 0 i).linear_output s

/-- The `dev_losses` list built by the loop in `dev_cost` (lines 190-199):
for every layer `i`, the layer's DEV weight times its DEV term on the raw
and clone-0 representations.  `none` when some per-layer division is
undefined. -/
def dev_terms (net : Net) (s : Store) (n : ℕ) (y : ℕ → ℤ) : Option (List ℝ) :=
  (List.range net.layer_count).mapM (fun i =>
    Option.map (fun v => net.dev_lams.getD i 0 * v)
      (devLoss n (net.rawLayer i).nOut (net.devX1 s i) (net.devX2 s i) y
        (net.dev_types.getD i 0)))

/-- `SS_DEV_NET.dev_cost` (lines 184-209) for a batch of `n` rows.  When the
configured DEV weights sum over the `1e-5` threshold, the classification loss
mixes the raw and clone-0 losses by `dev_mix_rate` and the regularization
loss adds the weighted per-layer DEV terms to the averaged raw/droppy
activation regularizers; otherwise the plain raw losses are used.  `none`
propagates an undefined per-layer DEV division. -/
def dev_cost (net : Net) (s : Store) (n : ℕ) (y : ℕ → ℤ)
    (joint_loss : ℤ := 1) : Option ℝ :=
  let dmr := net.dev_mix_rate
  if net.dev_lams_sum > 1e-5 then
    let class_loss :=
      dmr * net.raw_class_loss s y + (1 - dmr) * net.sde_class_loss s y
    Option.map (fun dev_losses =>
        let reg_loss :=
          dev_losses.sum + 0.5 * (net.raw_reg_loss s n + net.sde_reg_loss s n)
        if joint_loss = 1 then class_loss + reg_loss else reg_loss)
      (net.dev_terms s n y)
  else
    let class_loss := net.raw_class_loss s y
    let reg_loss := net.raw_reg_loss s n
    if joint_loss = 1 then some (class_loss + reg_loss) else some reg_loss

/-- `self.dev_reg_loss` (line 174): `lambda y: self.dev_cost(y, joint_loss=0)`. -/
def dev_reg_loss (net : Net) (s : Store) (n : ℕ) (y : ℕ → ℤ) : Option ℝ :=
  net.dev_cost s n y 0

/-- The classification component formed inside `dev_cost` (lines 189 and 203). -/
def dev_class_loss (net : Net) (s : Store) (y : ℕ → ℤ) : ℝ :=
  if net.dev_lams_sum > 1e-5 then
    net.dev_mix_rate * net.raw_class_loss s y +
      (1 - net.dev_mix_rate) * net.sde_class_loss s y
  else net.raw_class_loss s y

end Net

/-- The plain (non-DEV) weight-decay MLP objective as the spec's words state
it: raw classification loss plus raw activation regularization only. -/
def specPlainMLPObjective (net : Net) (s : Store) (n : ℕ) (y : ℕ → ℤ) : ℝ :=
  net.raw_class_loss s y + net.raw_reg_loss s n

/-! ## Helper lemmas -/

lemma listMapRangeSum (f : ℕ → ℝ) (n : ℕ) :
    ((List.range n).map f).sum = ∑ i ∈ Finset.range n, f i := by
  induction n with
  | zero => simp
  | succ m ih =>
    rw [List.range_succ, List.map_append, List.sum_append,
      Finset.sum_range_succ, ih]
    simp

lemma mapMOptionSome {α β : Type} (f : α → Option β) (g : α → β) :
    ∀ l : List α, (∀ a ∈ l, f a = some (g a)) → l.mapM f = some (l.map g) := by
  intro l
  induction l with
  | nil => intro _; rfl
  | cons a l ih =>
    intro h
    rw [List.mapM_cons, h a (List.mem_cons_self a l),
      ih (fun x hx => h x (List.mem_cons_of_mem a hx))]
    rfl

lemma mapMOptionNone {α β : Type} (f : α → Option β) :
    ∀ (l : List α) (a : α), a ∈ l → f a = none → l.mapM f = none := by
  intro l
  induction l with
  | nil => intro a ha; cases ha
  | cons b l ih =>
    intro a ha hfa
    rw [List.mapM_cons]
    rcases List.mem_cons.mp ha with h | h
    · rw [h] at hfa; rw [hfa]; rfl
    · cases hfb : f b
      · rfl
      · rw [ih a h hfa]; rfl

lemma ssMask_sum_eq_count (y : ℕ → ℤ) (n : ℕ) :
    (∑ i ∈ Finset.range n, ssMask y i) = (unlabeledCount y n : ℝ) := by
  unfold ssMask unlabeledCount
  rw [Finset.card_filter]
  push_cast
  exact Finset.sum_congr rfl (fun i _ => by split <;> simp)

lemma devLoss_eq_some_getD (n d : ℕ) (X1 X2 : Mat) (y : ℕ → ℤ) (t : ℤ)
    (hn : 0 < n) (hcnt : unlabeledCount y n ≠ 0) :
    devLoss n d X1 X2 y t = some ((devLoss n d X1 X2 y t).getD 0) := by
  unfold devLoss varFun centFun
  split_ifs with h1 h2 h3 h4 <;>
    first
      | rfl
      | (exact absurd ‹unlabeledCount y n = 0› hcnt)
      | (exact absurd ‹n = 0› hn.ne')

lemma devLoss_none_of_no_unlabeled (n d : ℕ) (X1 X2 : Mat) (y : ℕ → ℤ)
    (t : ℤ) (ht : t ≠ 4) (hcnt : unlabeledCount y n = 0) :
    devLoss n d X1 X2 y t = none := by
  unfold devLoss varFun
  split_ifs <;> rfl

lemma varFun_eq_filter (n d : ℕ) (y : ℕ → ℤ) (x1 x2 : Mat)
    (hcnt : unlabeledCount y n ≠ 0) :
    varFun n d y x1 x2 =
      some ((∑ i ∈ (Finset.range n).filter (fun i => y i = 0),
              ∑ j ∈ Finset.range d, (x1 i j - x2 i j) ^ 2) /
            (((Finset.range n).filter (fun i => y i = 0)).card : ℝ)) := by
  unfold varFun
  rw [if_neg hcnt, ssMask_sum_eq_count]
  unfold unlabeledCount
  have hnum : ∀ i ∈ Finset.range n,
      (∑ j ∈ Finset.range d, ((x1 i j - x2 i j) * ssMask y i) ^ 2) =
        (if y i = 0 then ∑ j ∈ Finset.range d, (x1 i j - x2 i j) ^ 2 else 0) := by
    intro i _
    unfold ssMask
    split_ifs
    · simp
    · simp
  rw [Finset.sum_congr rfl hnum, ← Finset.sum_filter]

lemma varFun_congr (n d : ℕ) (y : ℕ → ℤ) (a1 a2 b1 b2 : Mat)
    (h : ∀ i j, i < n → j < d → y i = 0 → a1 i j = b1 i j ∧ a2 i j = b2 i j) :
    varFun n d y a1 a2 = varFun n d y b1 b2 := by
  unfold varFun
  split_ifs with hc
  · rfl
  · refine congrArg some (congrArg (fun z => z / _) ?_)
    refine Finset.sum_congr rfl (fun i hi => Finset.sum_congr rfl (fun j hj => ?_))
    unfold ssMask
    by_cases hy : y i = 0
    · rw [(h i j (Finset.mem_range.mp hi) (Finset.mem_range.mp hj) hy).1,
        (h i j (Finset.mem_range.mp hi) (Finset.mem_range.mp hj) hy).2]
    · simp [hy]

lemma sigmoid_strictMono : StrictMono sigmoid := by
  intro a c hac
  unfold sigmoid
  have h1 : Real.exp (-c) < Real.exp (-a) := Real.exp_lt_exp.mpr (by linarith)
  have h2 : 0 < 1 + Real.exp (-c) := by positivity
  exact one_div_lt_one_div_of_lt h2 (by linarith)

lemma sigmoid_zero : sigmoid 0 = 1 / 2 := by
  unfold sigmoid
  rw [neg_zero, Real.exp_zero]
  norm_num

lemma sigmoid_pos (x : ℝ) : 0 < sigmoid x := by
  unfold sigmoid
  positivity

lemma sigmoid_lt_one (x : ℝ) : sigmoid x < 1 := by
  unfold sigmoid
  rw [div_lt_one (by positivity)]
  nlinarith [Real.exp_pos (-x)]

lemma getD_map_range {α : Type} (f : ℕ → α) (d : α) (m i : ℕ) (h : i < m) :
    ((List.range m).map f).getD i d = f i := by
  rw [List.getD_eq_getElem _ _ (by simpa using h)]
  simp

lemma getD_map_of_lt {α β : Type} (g : α → β) (da : α) (db : β) (l : List α)
    (j : ℕ) (h : j < l.length) :
    (l.map g).getD j db = g (l.getD j da) := by
  rw [List.getD_eq_getElem _ _ (by simpa using h), List.getElem_map,
    List.getD_eq_getElem _ _ h]

lemma buildLayers_length (act : Option (ℝ → ℝ)) (useBias : Bool) (dcCount : ℕ)
    (cloneMasks : ℕ → ℕ → Mat) :
    ∀ (sizes : List (ℕ × ℕ)) (t : ℕ) (rawIn : Store → Mat)
      (dropIns : ℕ → Store → Mat),
      (buildLayers act useBias dcCount cloneMasks sizes t rawIn dropIns).length
        = sizes.length := by
  intro sizes
  induction sizes with
  | nil => intro t rawIn dropIns; rfl
  | cons hd tl ih =>
    intro t rawIn dropIns
    obtain ⟨a, c⟩ := hd
    simp only [buildLayers, List.length_cons, ih]

lemma buildLayers_spec (act : Option (ℝ → ℝ)) (useBias : Bool) (dcCount : ℕ)
    (cloneMasks : ℕ → ℕ → Mat) :
    ∀ (sizes : List (ℕ × ℕ)) (t : ℕ) (rawIn : Store → Mat)
      (dropIns : ℕ → Store → Mat) (j : ℕ), j < sizes.length →
      (((buildLayers act useBias dcCount cloneMasks sizes t rawIn
            dropIns).getD j default).1.Wexpr = WExpr.ref (2 * (t + j)) ∧
       ((buildLayers act useBias dcCount cloneMasks sizes t rawIn
            dropIns).getD j default).1.bref = 2 * (t + j) + 1 ∧
       ((buildLayers act useBias dcCount cloneMasks sizes t rawIn
            dropIns).getD j default).1.drop_rate = 0) ∧
      (∀ i, i < dcCount →
        ((((buildLayers act useBias dcCount cloneMasks sizes t rawIn
              dropIns).getD j default).2.getD i default).Wexpr
            = WExpr.ref (2 * (t + j)) ∧
         (((buildLayers act useBias dcCount cloneMasks sizes t rawIn
              dropIns).getD j default).2.getD i default).bref
            = 2 * (t + j) + 1 ∧
         (((buildLayers act useBias dcCount cloneMasks sizes t rawIn
              dropIns).getD j default).2.getD i default).drop_rate
            = (if t + j = 0 then 0.2 else 0.5))) := by
  intro sizes
  induction sizes with
  | nil => intro t rawIn dropIns j hj; exact absurd hj (by simp)
  | cons hd tl ih =>
    intro t rawIn dropIns j hj
    obtain ⟨a, c⟩ := hd
    match j with
    | 0 =>
      refine ⟨⟨rfl, rfl, rfl⟩, fun i hi => ?_⟩
      simp only [buildLayers, List.getD_cons_zero]
      rw [getD_map_range _ _ _ _ hi]
      exact ⟨rfl, rfl, rfl⟩
    | Nat.succ k =>
      have hk : k < tl.length := by simpa using hj
      simp only [buildLayers, List.getD_cons_succ]
      have harith : t + (k + 1) = t + 1 + k := by omega
      rw [harith]
      exact ih (t + 1) _ _ k hk

lemma mkNet_layer_count (p : NetParams) (input : Mat)
    (cloneMasks : ℕ → ℕ → Mat) (daeMasks sdeDecMasks : ℕ → Mat)
    (mcl : HLayer → Store → (ℕ → ℤ) → ℝ) :
    (mkNet p input cloneMasks daeMasks sdeDecMasks mcl).layer_count =
      (p.layer_sizes.zip p.layer_sizes.tail).length := by
  simp only [mkNet, List.length_map, buildLayers_length]

lemma mkNet_rawLayer_spec (p : NetParams) (input : Mat)
    (cloneMasks : ℕ → ℕ → Mat) (daeMasks sdeDecMasks : ℕ → Mat)
    (mcl : HLayer → Store → (ℕ → ℤ) → ℝ) (j : ℕ)
    (hj : j < (p.layer_sizes.zip p.layer_sizes.tail).length) :
    ((mkNet p input cloneMasks daeMasks sdeDecMasks mcl).rawLayer j).Wexpr
        = WExpr.ref (2 * j) ∧
    ((mkNet p input cloneMasks daeMasks sdeDecMasks mcl).rawLayer j).bref
        = 2 * j + 1 ∧
    ((mkNet p input cloneMasks daeMasks sdeDecMasks mcl).rawLayer j).drop_rate
        = 0 := by
  have hlen : j < (buildLayers (some sigmoid) p.use_bias p.dev_clones
      cloneMasks (p.layer_sizes.zip p.layer_sizes.tail) 0 (fun _ => input)
      (fun _ _ => input)).length := by
    rw [buildLayers_length]; exact hj
  have hspec := (buildLayers_spec (some sigmoid) p.use_bias p.dev_clones
    cloneMasks (p.layer_sizes.zip p.layer_sizes.tail) 0 (fun _ => input)
    (fun _ _ => input) j (by rw [← buildLayers_length (some sigmoid)
      p.use_bias p.dev_clones cloneMasks _ 0 (fun _ => input)
      (fun _ _ => input)] at hj; rw [buildLayers_length] at hj; exact hj)).1
  simp only [Net.rawLayer, mkNet]
  rw [getD_map_of_lt Prod.fst default default _ j hlen]
  simpa using hspec

lemma mkNet_cloneLayer_spec (p : NetParams) (input : Mat)
    (cloneMasks : ℕ → ℕ → Mat) (daeMasks sdeDecMasks : ℕ → Mat)
    (mcl : HLayer → Store → (ℕ → ℤ) → ℝ) (i j : ℕ)
    (hi : i < p.dev_clones)
    (hj : j < (p.layer_sizes.zip p.layer_sizes.tail).length) :
    ((mkNet p input cloneMasks daeMasks sdeDecMasks mcl).cloneLayer i j).Wexpr
        = WExpr.ref (2 * j) ∧
    ((mkNet p input cloneMasks daeMasks sdeDecMasks mcl).cloneLayer i j).bref
        = 2 * j + 1 ∧
    ((mkNet p input cloneMasks daeMasks sdeDecMasks mcl).cloneLayer i j).drop_rate
        = (if j = 0 then 0.2 else 0.5) := by
  have hlen : j < (buildLayers (some sigmoid) p.use_bias p.dev_clones
      cloneMasks (p.layer_sizes.zip p.layer_sizes.tail) 0 (fun _ => input)
      (fun _ _ => input)).length := by
    rw [buildLayers_length]; exact hj
  have hspec := (buildLayers_spec (some sigmoid) p.use_bias p.dev_clones
    cloneMasks (p.layer_sizes.zip p.layer_sizes.tail) 0 (fun _ => input)
    (fun _ _ => input) j (by
      rw [buildLayers_length (some sigmoid) p.use_bias p.dev_clones
        cloneMasks _ 0 (fun _ => input) (fun _ _ => input)] at hlen
      exact hlen)).2 i hi
  simp only [Net.cloneLayer, mkNet]
  rw [getD_map_range _ _ _ _ hi, getD_map_of_lt
    (fun pr => pr.2.getD i default) default default _ j hlen]
  simpa using hspec

/-! ## Concrete instances used by the witnesses -/

def onesMat : Mat := fun _ _ => 1

def storeZero : Store := fun _ _ _ => 0

def zeroLoss : HLayer → Store → (ℕ → ℤ) → ℝ := fun _ _ _ => 0

def tinyParams : NetParams :=
  { layer_sizes := [1, 1], lam_l2a := 1, use_bias := true, dev_clones := 1,
    dev_types := [0], dev_lams := [1], dev_mix_rate := none }

/-- A one-layer net with one dropout clone and DEV weight 1. -/
def tinyNet : Net :=
  mkNet tinyParams onesMat (fun _ _ => onesMat) (fun _ => onesMat)
    (fun _ => onesMat) zeroLoss

def tinyParams0 : NetParams :=
  { tinyParams with dev_lams := [0] }

/-- The same net with its DEV weight configured to 0. -/
def tinyNet0 : Net :=
  mkNet tinyParams0 onesMat (fun _ _ => onesMat) (fun _ => onesMat)
    (fun _ => onesMat) zeroLoss

def tinyParams2 : NetParams :=
  { layer_sizes := [1, 1, 1], lam_l2a := 1, use_bias := true, dev_clones := 1,
    dev_types := [0, 0], dev_lams := [1, 1], dev_mix_rate := some 0.5 }

/-- A two-layer net (so that one DAE pair is constructed). -/
def tinyNet2 : Net :=
  mkNet tinyParams2 onesMat (fun _ _ => onesMat) (fun _ => onesMat)
    (fun _ => onesMat) zeroLoss

/-- A standalone droppy layer (rate 0.5) for the dropout-behavior witness. -/
def dropLayer : HLayer :=
  { drop_rate := 0.5, Wexpr := .ref 0, bref := 1, nIn := 1, nOut := 1,
    useBias := true, act := none, givenInput := fun _ => onesMat,
    mask := onesMat }

lemma tiny_clone_out (s : Store) :
    (tinyNet.cloneLayer 0 0).output s 0 0 =
      sigmoid (1 * (1 / (1 - 0.2) * s 0 0 0) + s 1 0 0) := by
  have h : tinyNet.cloneLayer 0 0 =
      { drop_rate := 0.2, Wexpr := .ref 0, bref := 1, nIn := 1, nOut := 1,
        useBias := true, act := some sigmoid, givenInput := fun _ => onesMat,
        mask := onesMat } := rfl
  rw [h]
  simp only [HLayer.output, HLayer.linear_output, HLayer.selfInput, HLayer.W,
    HLayer.b, WExpr.eval, onesMat, Finset.sum_range_one,
    if_neg (by norm_num : ¬((0.2 : ℝ) < 0.01)), if_pos trivial]
  norm_num

/-- Mutating the shared raw weight in the store changes clone 0's computed
output on `tinyNet`: the parameters are shared by reference, not copied. -/
lemma tiny_clone_sensitive :
    (tinyNet.cloneLayer 0 0).output
        (Function.update storeZero ((tinyNet.rawLayer 0).Wexpr.baseId) onesMat)
        0 0 ≠
      (tinyNet.cloneLayer 0 0).output storeZero 0 0 := by
  rw [tiny_clone_out, tiny_clone_out]
  have hb : (tinyNet.rawLayer 0).Wexpr.baseId = 0 := rfl
  rw [hb, Function.update_same,
    Function.update_noteq (by norm_num : (1 : ℕ) ≠ 0)]
  have h0 : storeZero 0 0 0 = 0 := rfl
  have h1 : storeZero 1 0 0 = 0 := rfl
  have ho : onesMat 0 0 = 1 := rfl
  rw [h0, h1, ho]
  have hlt : sigmoid (1 * (1 / (1 - 0.2) * 0) + 0) <
      sigmoid (1 * (1 / (1 - 0.2) * 1) + 0) := by
    apply sigmoid_strictMono
    norm_num
  exact ne_of_gt hlt

lemma mkNet_dae_getD (p : NetParams) (input : Mat)
    (cloneMasks : ℕ → ℕ → Mat) (daeMasks sdeDecMasks : ℕ → Mat)
    (mcl : HLayer → Store → (ℕ → ℤ) → ℝ) (i : ℕ)
    (hi : i + 1 < (p.layer_sizes.zip p.layer_sizes.tail).length) :
    (mkNet p input cloneMasks daeMasks sdeDecMasks mcl).raw_dae_layers.getD
        i default =
      ((mkDAEunit (some sigmoid)
          (mkNet p input cloneMasks daeMasks sdeDecMasks mcl).mlp_layers
          (mkNet p input cloneMasks daeMasks sdeDecMasks mcl).layer_count
          daeMasks sdeDecMasks i).1,
       (mkDAEunit (some sigmoid)
          (mkNet p input cloneMasks daeMasks sdeDecMasks mcl).mlp_layers
          (mkNet p input cloneMasks daeMasks sdeDecMasks mcl).layer_count
          daeMasks sdeDecMasks i).2.1) ∧
    (mkNet p input cloneMasks daeMasks sdeDecMasks mcl).sde_dae_layers.getD
        i default =
      ((mkDAEunit (some sigmoid)
          (mkNet p input cloneMasks daeMasks sdeDecMasks mcl).mlp_layers
          (mkNet p input cloneMasks daeMasks sdeDecMasks mcl).layer_count
          daeMasks sdeDecMasks i).1,
       (mkDAEunit (some sigmoid)
          (mkNet p input cloneMasks daeMasks sdeDecMasks mcl).mlp_layers
          (mkNet p input cloneMasks daeMasks sdeDecMasks mcl).layer_count
          daeMasks sdeDecMasks i).2.2) := by
  have hlt : i < ((buildLayers (some sigmoid) p.use_bias p.dev_clones
      cloneMasks (p.layer_sizes.zip p.layer_sizes.tail) 0 (fun _ => input)
      (fun _ _ => input)).map Prod.fst).length - 1 := by
    rw [List.length_map, buildLayers_length]
    omega
  simp only [mkNet, mkDAE]
  constructor <;> rw [getD_map_range _ _ _ _ hlt]

/-- Concrete all-zero label vector (every entry unlabeled). -/
def yZero : ℕ → ℤ := fun _ => 0

/-- Concrete all-one label vector (no entry unlabeled). -/
def yOne : ℕ → ℤ := fun _ => 1

/-- Labels: entry 0 unlabeled, every other entry labeled 1. -/
def yOneZero : ℕ → ℤ := fun i => if i = 0 then 0 else 1

/-- A matrix that is nonzero only on (labeled) row 1. -/
def matA : Mat := fun i _ => if i = 1 then 5 else 0

/-- Another matrix that is nonzero only on (labeled) row 1, differing from
`matA` there. -/
def matB : Mat := fun i _ => if i = 1 then 7 else 0

lemma bce_sigmoid_zero_self : bce (sigmoid 0) (sigmoid 0) = Real.log 2 := by
  rw [sigmoid_zero]
  unfold bce
  rw [show (1 : ℝ) - 1 / 2 = 1 / 2 by norm_num,
    show (1 : ℝ) / 2 = 2⁻¹ by norm_num, Real.log_inv]
  ring

lemma bce_sigmoid_one_gt : Real.log 2 < bce (sigmoid 1) (sigmoid 0) := by
  rw [sigmoid_zero]
  unfold bce
  have hq0 : 0 < sigmoid 1 := sigmoid_pos 1
  have hq1 : sigmoid 1 < 1 := sigmoid_lt_one 1
  have hqh : 1 / 2 < sigmoid 1 := by
    rw [← sigmoid_zero]
    exact sigmoid_strictMono (by norm_num)
  have hquarter : sigmoid 1 * (1 - sigmoid 1) < 1 / 4 := by nlinarith
  have hprodpos : 0 < sigmoid 1 * (1 - sigmoid 1) := by nlinarith
  have hlog : Real.log (sigmoid 1 * (1 - sigmoid 1)) < Real.log (1 / 4) :=
    Real.log_lt_log hprodpos hquarter
  have hlogsum : Real.log (sigmoid 1) + Real.log (1 - sigmoid 1) =
      Real.log (sigmoid 1 * (1 - sigmoid 1)) :=
    (Real.log_mul hq0.ne' (by linarith)).symm
  have hlog4 : Real.log (1 / 4 : ℝ) = -(2 * Real.log 2) := by
    rw [show (1 : ℝ) / 4 = 4⁻¹ by norm_num, Real.log_inv,
      show (4 : ℝ) = 2 ^ 2 by norm_num, Real.log_pow]
    push_cast
    ring
  have hrw : -(1 / 2 * Real.log (sigmoid 1) +
      (1 - 1 / 2) * Real.log (1 - sigmoid 1)) =
      -(1 / 2) * (Real.log (sigmoid 1) + Real.log (1 - sigmoid 1)) := by ring
  rw [hrw, hlogsum]
  rw [hlog4] at hlog
  linarith

/-! ## Claim theorems -/

/-- C3: for every selector other than 4 the per-layer DEV term equals the
sum, over the rows flagged unlabeled and all feature columns, of the squared
difference of the transformed representations, divided by the number of rows
flagged unlabeled (the ones of the `(n,1)` semi-supervised mask, which is
broadcast across the feature dimension in the numerator); the transform is
the identity for selector 0 and any selector outside 1-4,
row-L2-normalization for 1, tanh for 2 and sigmoid for 3. -/
theorem dev_loss_masked_variance (n d : ℕ) (X1 X2 : Mat) (y : ℕ → ℤ) (t : ℤ)
    (ht : t ≠ 4) (hy : ∃ i, i < n ∧ y i = 0) :
    devLoss n d X1 X2 y t =
      some ((∑ i ∈ (Finset.range n).filter (fun i => y i = 0),
              ∑ j ∈ Finset.range d,
                (devTransform d t X1 i j - devTransform d t X2 i j) ^ 2) /
            (((Finset.range n).filter (fun i => y i = 0)).card : ℝ)) := by
  obtain ⟨i0, hi0, hyi0⟩ := hy
  have hcnt : unlabeledCount y n ≠ 0 := by
    unfold unlabeledCount
    exact Finset.card_ne_zero_of_mem
      (Finset.mem_filter.mpr ⟨Finset.mem_range.mpr hi0, hyi0⟩)
  unfold devLoss
  split_ifs with h1 h2 h3
  · subst h1
    rw [varFun_eq_filter n d y _ _ hcnt]
    norm_num [devTransform]
  · subst h2
    rw [varFun_eq_filter n d y _ _ hcnt]
    norm_num [devTransform]
  · subst h3
    rw [varFun_eq_filter n d y _ _ hcnt]
    norm_num [devTransform]
  · rw [varFun_eq_filter n d y _ _ hcnt]
    simp [devTransform, h1, h2, h3]

theorem dev_loss_masked_variance_witness :
    devLoss 1 1 (fun _ _ => 0) onesMat yZero 0 =
      some ((∑ i ∈ (Finset.range 1).filter (fun i => yZero i = 0),
              ∑ j ∈ Finset.range 1,
                (devTransform 1 0 (fun _ _ => 0) i j -
                  devTransform 1 0 onesMat i j) ^ 2) /
            (((Finset.range 1).filter (fun i => yZero i = 0)).card : ℝ)) :=
  dev_loss_masked_variance 1 1 (fun _ _ => 0) onesMat yZero 0
    (by decide) ⟨0, Nat.zero_lt_one, rfl⟩

/-- C4 (counterexample): selector 4 does *not* restrict the DEV term to
unlabeled entries.  With the single batch entry labeled 1 (so no entry is
unlabeled), changing only that labeled entry of the clone representation
changes the selector-4 DEV term — labeled entries do contribute. -/
theorem dev_loss_type4_ignores_mask_cex :
    devLoss 1 1 (fun _ _ => 0) (fun _ _ => 0) yOne 4 ≠
      devLoss 1 1 (fun _ _ => 0) (fun _ _ => 1) yOne 4 := by
  have h4 : ∀ X2 : Mat, devLoss 1 1 (fun _ _ => 0) X2 yOne 4 =
      some (bce (sigmoid (X2 0 0)) (sigmoid 0) / 1) := by
    intro X2
    unfold devLoss centFun
    norm_num [Finset.sum_range_one]
  rw [h4, h4]
  intro hcontra
  have heq : bce (sigmoid 0) (sigmoid 0) / 1 =
      bce (sigmoid 1) (sigmoid 0) / 1 := Option.some_injective _ hcontra
  rw [div_one, div_one, bce_sigmoid_zero_self] at heq
  exact absurd heq (ne_of_lt bce_sigmoid_one_gt)

/-- C4 (amended): for every DEV selector other than 4 the DEV term is
computed only over the batch entries whose label equals the unlabeled marker
0 — entries with nonzero labels contribute nothing, so changing the
representations on labeled rows leaves the term unchanged.  Selector 4 (the
cross-entropy variant) ignores the semi-supervised mask and sums over all
batch entries, as the counterexample shows. -/
theorem dev_loss_restricted_to_unlabeled (n d : ℕ) (X1 X2 W1 W2 : Mat)
    (y : ℕ → ℤ) (t : ℤ) (ht : t ≠ 4)
    (h1 : ∀ i j, i < n → j < d → y i = 0 → X1 i j = W1 i j)
    (h2 : ∀ i j, i < n → j < d → y i = 0 → X2 i j = W2 i j) :
    devLoss n d X1 X2 y t = devLoss n d W1 W2 y t := by
  unfold devLoss
  split_ifs with ha hb hc
  · refine varFun_congr n d y _ _ _ _ (fun i j hi hj hy0 => ⟨?_, ?_⟩)
    · unfold rowNormalize
      rw [h1 i j hi hj hy0, Finset.sum_congr rfl (fun k hk => by
        rw [h1 i k hi (Finset.mem_range.mp hk) hy0])]
    · unfold rowNormalize
      rw [h2 i j hi hj hy0, Finset.sum_congr rfl (fun k hk => by
        rw [h2 i k hi (Finset.mem_range.mp hk) hy0])]
  · refine varFun_congr n d y _ _ _ _ (fun i j hi hj hy0 =>
      ⟨by rw [h1 i j hi hj hy0], by rw [h2 i j hi hj hy0]⟩)
  · refine varFun_congr n d y _ _ _ _ (fun i j hi hj hy0 =>
      ⟨by rw [h1 i j hi hj hy0], by rw [h2 i j hi hj hy0]⟩)
  · exact varFun_congr n d y _ _ _ _ (fun i j hi hj hy0 =>
      ⟨h1 i j hi hj hy0, h2 i j hi hj hy0⟩)

theorem dev_loss_restricted_to_unlabeled_witness :
    devLoss 2 1 (fun _ _ => 0) matA yOneZero 0 =
      devLoss 2 1 (fun _ _ => 0) matB yOneZero 0 :=
  dev_loss_restricted_to_unlabeled 2 1 (fun _ _ => 0) matA (fun _ _ => 0)
    matB yOneZero 0 (by decide) (fun _ _ _ _ _ => rfl)
    (by
      intro i j hi hj hy0
      unfold matA matB
      have hne : i ≠ 1 := by
        intro h
        rw [h] at hy0
        exact absurd hy0 (by decide)
      rw [if_neg hne, if_neg hne])

/-- C8 (counterexample): `row_normalize` does not divide each row by its L2
norm plus the additive epsilon `1e-6`.  On the all-ones 1×2 row, the code
divides by `sqrt(2 + 1e-6)` while the spec's formula divides by
`sqrt(2) + 1e-6`; the two results differ. -/
theorem row_normalize_epsilon_cex :
    rowNormalize 2 onesMat 0 0 ≠ rowNormalizeSpec 2 onesMat 0 0 := by
  have hsum : (∑ k ∈ Finset.range 2, (onesMat 0 k) ^ 2) = 2 := by
    norm_num [onesMat, Finset.sum_range_succ]
  unfold rowNormalize rowNormalizeSpec
  rw [hsum]
  have h1 : onesMat 0 0 = 1 := rfl
  rw [h1]
  have hs2 : Real.sqrt 2 ^ 2 = 2 := Real.sq_sqrt (by norm_num)
  have hs2nn : 0 ≤ Real.sqrt 2 := Real.sqrt_nonneg 2
  have hs2ge1 : 1 ≤ Real.sqrt 2 := by nlinarith
  have hlt : Real.sqrt (2 + 1e-6) < Real.sqrt 2 + 1e-6 := by
    rw [Real.sqrt_lt' (by positivity)]
    nlinarith
  have hpos : 0 < Real.sqrt (2 + 1e-6) := Real.sqrt_pos.mpr (by norm_num)
  have hdiv : 1 / (Real.sqrt 2 + 1e-6) < 1 / Real.sqrt (2 + 1e-6) :=
    one_div_lt_one_div_of_lt hpos hlt
  exact ne_of_gt hdiv

/-- C8 (amended): `row_normalize` divides each entry of a row by the square
root of (the row's sum of squares plus `1e-6`) — the epsilon is added to the
squared norm under the root, not to the norm.  The denominator is always
positive, so the result is defined even on an all-zero row; each output
row's squared L2 norm equals `S/(S + 1e-6) ≤ 1`, and is within `1e-6` of 1
whenever the input row's squared norm is at least 1. -/
theorem row_normalize_amended (d : ℕ) (x : Mat) (i : ℕ) :
    (∀ j, rowNormalize d x i j =
      x i j / Real.sqrt ((∑ k ∈ Finset.range d, (x i k) ^ 2) + 1e-6)) ∧
    0 < Real.sqrt ((∑ k ∈ Finset.range d, (x i k) ^ 2) + 1e-6) ∧
    (∑ j ∈ Finset.range d, (rowNormalize d x i j) ^ 2) =
      (∑ k ∈ Finset.range d, (x i k) ^ 2) /
        ((∑ k ∈ Finset.range d, (x i k) ^ 2) + 1e-6) ∧
    (∑ j ∈ Finset.range d, (rowNormalize d x i j) ^ 2) ≤ 1 ∧
    (1 ≤ ∑ k ∈ Finset.range d, (x i k) ^ 2 →
      1 - 1e-6 ≤ ∑ j ∈ Finset.range d, (rowNormalize d x i j) ^ 2) := by
  set S := ∑ k ∈ Finset.range d, (x i k) ^ 2 with hS
  have hS0 : 0 ≤ S := Finset.sum_nonneg (fun k _ => sq_nonneg _)
  have heps : (0 : ℝ) < 1e-6 := by norm_num
  have hpos : 0 < S + 1e-6 := by linarith
  have hsq : Real.sqrt (S + 1e-6) ^ 2 = S + 1e-6 := Real.sq_sqrt (le_of_lt hpos)
  have hsqrtpos : 0 < Real.sqrt (S + 1e-6) := Real.sqrt_pos.mpr hpos
  have hformula : ∀ j, rowNormalize d x i j =
      x i j / Real.sqrt (S + 1e-6) := fun j => rfl
  have hsumsq : (∑ j ∈ Finset.range d, (rowNormalize d x i j) ^ 2) =
      S / (S + 1e-6) := by
    have hterm : ∀ j ∈ Finset.range d,
        (rowNormalize d x i j) ^ 2 = (x i j) ^ 2 / (S + 1e-6) := by
      intro j _
      rw [hformula j, div_pow, hsq]
    rw [Finset.sum_congr rfl hterm, ← Finset.sum_div]
  refine ⟨hformula, hsqrtpos, hsumsq, ?_, ?_⟩
  · rw [hsumsq, div_le_one hpos]
    linarith
  · intro hS1
    rw [hsumsq, le_div_iff₀ hpos]
    nlinarith [mul_nonneg (le_of_lt heps) (sub_nonneg.mpr hS1)]

theorem row_normalize_amended_witness :
    rowNormalize 1 (fun _ _ => 2) 0 0 =
      2 / Real.sqrt ((∑ _k ∈ Finset.range 1, (2 : ℝ) ^ 2) + 1e-6) ∧
    0 < Real.sqrt ((∑ _k ∈ Finset.range 1, (2 : ℝ) ^ 2) + 1e-6) ∧
    1 - 1e-6 ≤ ∑ j ∈ Finset.range 1, (rowNormalize 1 (fun _ _ => 2) 0 j) ^ 2 := by
  have h := row_normalize_amended 1 (fun _ _ => 2) 0
  have h1 : (1 : ℝ) ≤ ∑ k ∈ Finset.range 1, (2 : ℝ) ^ 2 := by norm_num
  exact ⟨h.1 0, h.2.1, h.2.2.2.2 h1⟩

lemma dev_terms_eq (net : Net) (s : Store) (n : ℕ) (y : ℕ → ℤ)
    (hn : 0 < n) (hcnt : unlabeledCount y n ≠ 0) :
    net.dev_terms s n y = some ((List.range net.layer_count).map (fun i =>
      net.dev_lams.getD i 0 *
        (devLoss n (net.rawLayer i).nOut (net.devX1 s i) (net.devX2 s i) y
          (net.dev_types.getD i 0)).getD 0)) := by
  unfold Net.dev_terms
  apply mapMOptionSome
  intro a _
  rw [devLoss_eq_some_getD _ _ _ _ _ _ hn hcnt]
  rfl

/-- C1: when the configured DEV weights sum over `1e-5` (and the batch is
well-formed: nonempty with at least one unlabeled entry, so that every
per-layer division is defined), `dev_cost` computes the classification loss
as `dev_mix_rate` times the raw classification loss plus `1 - dev_mix_rate`
times clone 0's, computes the regularization loss as the sum over layers of
the layer's DEV weight times its DEV term plus 0.5 times the raw and 0.5
times the droppy activation-regularization losses, compares post-activation
outputs at every layer except the last (whose pre-activation linear outputs
are compared instead), and returns classification plus regularization when
`joint_loss` is 1 and the regularization loss alone otherwise. -/
theorem dev_cost_formula (net : Net) (s : Store) (n : ℕ) (y : ℕ → ℤ) (j : ℤ)
    (hsum : net.dev_lams_sum > 1e-5)
    (hy : ∃ i, i < n ∧ y i = 0) :
    net.dev_cost s n y j =
      some (if j = 1
        then (net.dev_mix_rate * net.raw_class_loss s y +
              (1 - net.dev_mix_rate) * net.sde_class_loss s y) +
             ((∑ i ∈ Finset.range net.layer_count,
                net.dev_lams.getD i 0 *
                  (devLoss n (net.rawLayer i).nOut
                    (if i < net.layer_count - 1 then (net.rawLayer i).output s
                     else (net.rawLayer i).linear_output s)
                    (if i < net.layer_count - 1 then (net.cloneLayer 0 i).output s
                     else (net.cloneLayer 0 i).linear_output s)
                    y (net.dev_types.getD i 0)).getD 0) +
              0.5 * net.raw_reg_loss s n + 0.5 * net.sde_reg_loss s n)
        else ((∑ i ∈ Finset.range net.layer_count,
                net.dev_lams.getD i 0 *
                  (devLoss n (net.rawLayer i).nOut
                    (if i < net.layer_count - 1 then (net.rawLayer i).output s
                     else (net.rawLayer i).linear_output s)
                    (if i < net.layer_count - 1 then (net.cloneLayer 0 i).output s
                     else (net.cloneLayer 0 i).linear_output s)
                    y (net.dev_types.getD i 0)).getD 0) +
              0.5 * net.raw_reg_loss s n + 0.5 * net.sde_reg_loss s n)) := by
  obtain ⟨i0, hi0, hyi0⟩ := hy
  have hn : 0 < n := Nat.lt_of_le_of_lt (Nat.zero_le i0) hi0
  have hcnt : unlabeledCount y n ≠ 0 := by
    unfold unlabeledCount
    exact Finset.card_ne_zero_of_mem
      (Finset.mem_filter.mpr ⟨Finset.mem_range.mpr hi0, hyi0⟩)
  unfold Net.dev_cost
  rw [if_pos hsum, dev_terms_eq net s n y hn hcnt, Option.map_some']
  refine congrArg some ?_
  rw [listMapRangeSum]
  simp only [Net.devX1, Net.devX2]
  split_ifs with hj <;> ring

theorem dev_cost_formula_witness :
    tinyNet.dev_cost storeZero 1 yZero 1 =
      some (if (1 : ℤ) = 1
        then (tinyNet.dev_mix_rate * tinyNet.raw_class_loss storeZero yZero +
              (1 - tinyNet.dev_mix_rate) *
                tinyNet.sde_class_loss storeZero yZero) +
             ((∑ i ∈ Finset.range tinyNet.layer_count,
                tinyNet.dev_lams.getD i 0 *
                  (devLoss 1 (tinyNet.rawLayer i).nOut
                    (if i < tinyNet.layer_count - 1
                     then (tinyNet.rawLayer i).output storeZero
                     else (tinyNet.rawLayer i).linear_output storeZero)
                    (if i < tinyNet.layer_count - 1
                     then (tinyNet.cloneLayer 0 i).output storeZero
                     else (tinyNet.cloneLayer 0 i).linear_output storeZero)
                    yZero (tinyNet.dev_types.getD i 0)).getD 0) +
              0.5 * tinyNet.raw_reg_loss storeZero 1 +
              0.5 * tinyNet.sde_reg_loss storeZero 1)
        else ((∑ i ∈ Finset.range tinyNet.layer_count,
                tinyNet.dev_lams.getD i 0 *
                  (devLoss 1 (tinyNet.rawLayer i).nOut
                    (if i < tinyNet.layer_count - 1
                     then (tinyNet.rawLayer i).output storeZero
                     else (tinyNet.rawLayer i).linear_output storeZero)
                    (if i < tinyNet.layer_count - 1
                     then (tinyNet.cloneLayer 0 i).output storeZero
                     else (tinyNet.cloneLayer 0 i).linear_output storeZero)
                    yZero (tinyNet.dev_types.getD i 0)).getD 0) +
              0.5 * tinyNet.raw_reg_loss storeZero 1 +
              0.5 * tinyNet.sde_reg_loss storeZero 1)) :=
  dev_cost_formula tinyNet storeZero 1 yZero 1
    (by rw [show tinyNet.dev_lams_sum = 1 + 0 from rfl]; norm_num)
    ⟨0, Nat.zero_lt_one, rfl⟩

/-- C5: when every configured DEV weight is 0 (so their sum does not exceed
the `1e-5` threshold), `dev_cost` with `joint_loss = 1` returns exactly the
raw classification loss plus the raw activation-regularization loss — the
plain non-DEV weight-decay MLP objective, with no clone or DEV term
contributing. -/
theorem dev_cost_degenerates_to_plain (p : NetParams) (input : Mat)
    (cloneMasks : ℕ → ℕ → Mat) (daeMasks sdeDecMasks : ℕ → Mat)
    (mcl : HLayer → Store → (ℕ → ℤ) → ℝ) (net : Net)
    (hnet : net = mkNet p input cloneMasks daeMasks sdeDecMasks mcl)
    (s : Store) (n : ℕ) (y : ℕ → ℤ)
    (hl : ∀ x ∈ p.dev_lams, x = 0) :
    net.dev_cost s n y 1 = some (specPlainMLPObjective net s n y) := by
  subst hnet
  have hsum : (mkNet p input cloneMasks daeMasks sdeDecMasks mcl).dev_lams_sum
      = 0 := by
    show p.dev_lams.sum = 0
    exact List.sum_eq_zero hl
  unfold Net.dev_cost
  rw [if_neg (by rw [hsum]; norm_num)]
  rfl

theorem dev_cost_degenerates_to_plain_witness :
    tinyNet0.dev_cost storeZero 1 yZero 1 =
      some (specPlainMLPObjective tinyNet0 storeZero 1 yZero) :=
  dev_cost_degenerates_to_plain tinyParams0 onesMat (fun _ _ => onesMat)
    (fun _ => onesMat) (fun _ => onesMat) zeroLoss tinyNet0 rfl storeZero 1
    yZero (by
      intro a ha
      rw [show tinyParams0.dev_lams = [0] from rfl] at ha
      simpa using ha)

/-- C9: when the DEV weights sum over `1e-5` and some layer uses a selector
in 0-3, a label vector with no entry equal to the unlabeled marker 0 makes
the masked-variance denominator `T.sum(ss_mask)` zero, and `dev_cost`
produces the undefined division-by-zero result (`none`, i.e. a non-finite
value at run time) rather than silently defaulting to 0; avoiding this is a
caller precondition. -/
theorem dev_cost_no_unlabeled_undefined (net : Net) (s : Store) (n : ℕ)
    (y : ℕ → ℤ) (j : ℤ)
    (hsum : net.dev_lams_sum > 1e-5)
    (hsel : ∃ i, i < net.layer_count ∧ 0 ≤ net.dev_types.getD i 0 ∧
      net.dev_types.getD i 0 ≤ 3)
    (hy : ∀ i, i < n → y i ≠ 0) :
    (∑ i ∈ Finset.range n, ssMask y i) = 0 ∧ net.dev_cost s n y j = none := by
  have hcnt : unlabeledCount y n = 0 := by
    unfold unlabeledCount
    rw [Finset.card_eq_zero]
    refine Finset.filter_eq_empty_iff.mpr (fun i hi => ?_)
    exact hy i (Finset.mem_range.mp hi)
  constructor
  · rw [ssMask_sum_eq_count, hcnt]
    norm_num
  · obtain ⟨i0, hi0, ht0, ht3⟩ := hsel
    have hterms : net.dev_terms s n y = none := by
      unfold Net.dev_terms
      refine mapMOptionNone _ _ i0 (List.mem_range.mpr hi0) ?_
      rw [devLoss_none_of_no_unlabeled _ _ _ _ _ _ (by omega) hcnt]
      rfl
    unfold Net.dev_cost
    rw [if_pos hsum, hterms]
    rfl

theorem dev_cost_no_unlabeled_undefined_witness :
    (∑ i ∈ Finset.range 1, ssMask yOne i) = 0 ∧
    tinyNet.dev_cost storeZero 1 yOne 1 = none :=
  dev_cost_no_unlabeled_undefined tinyNet storeZero 1 yOne 1
    (by rw [show tinyNet.dev_lams_sum = 1 + 0 from rfl]; norm_num)
    ⟨0, by rw [show tinyNet.layer_count = 1 from rfl]; norm_num, by decide⟩
    (fun i _ => by simp [yOne])

/-- C10: `dev_cost` returns the joint classification-plus-regularization
loss only when its `joint_loss` argument equals exactly 1 (also its
default); any other value — including other truthy values such as 2 — makes
it return the regularization term alone (the source's own
`dev_reg_loss = dev_cost(y, joint_loss=0)`). -/
theorem dev_cost_joint_flag (net : Net) (s : Store) (n : ℕ) (y : ℕ → ℤ)
    (j : ℤ) (hj : j ≠ 1) :
    net.dev_cost s n y j = net.dev_reg_loss s n y ∧
    net.dev_cost s n y 1 =
      Option.map (fun r => net.dev_class_loss s y + r)
        (net.dev_reg_loss s n y) ∧
    net.dev_cost s n y = net.dev_cost s n y 1 := by
  refine ⟨?_, ?_, rfl⟩
  · unfold Net.dev_reg_loss Net.dev_cost
    dsimp only
    by_cases hsum : net.dev_lams_sum > 1e-5
    · rw [if_pos hsum, if_pos hsum]
      simp [hj]
    · rw [if_neg hsum, if_neg hsum]
      simp [hj]
  · unfold Net.dev_reg_loss Net.dev_class_loss Net.dev_cost
    dsimp only
    by_cases hsum : net.dev_lams_sum > 1e-5
    · rw [if_pos hsum, if_pos hsum, if_pos hsum, Option.map_map]
      refine congrArg₂ Option.map (funext fun dl => ?_) rfl
      simp [Function.comp]
    · rw [if_neg hsum, if_neg hsum, if_neg hsum]
      simp

theorem dev_cost_joint_flag_witness :
    tinyNet.dev_cost storeZero 1 yZero 2 = tinyNet.dev_reg_loss storeZero 1 yZero ∧
    tinyNet.dev_cost storeZero 1 yZero 1 =
      Option.map (fun r => tinyNet.dev_class_loss storeZero yZero + r)
        (tinyNet.dev_reg_loss storeZero 1 yZero) ∧
    tinyNet.dev_cost storeZero 1 yZero = tinyNet.dev_cost storeZero 1 yZero 1 :=
  dev_cost_joint_flag tinyNet storeZero 1 yZero 2 (by decide)

/-- C2: after constructing a network with K ≥ 1 dropout clones, clone `i`'s
layer `j` references the very same shared weight and bias parameters as raw
layer `j` (shared identity: the concrete conjunct shows that updating the
store at the raw layer's weight id changes clone 0's computed output on
`tinyNet`), and the clone layer's dropout rate is 0.2 at the first position
and 0.5 at every later position. -/
theorem clone_layers_share_raw_parameters
    (p : NetParams) (input : Mat) (cloneMasks : ℕ → ℕ → Mat)
    (daeMasks sdeDecMasks : ℕ → Mat) (mcl : HLayer → Store → (ℕ → ℤ) → ℝ)
    (i j : ℕ) (hi : i < p.dev_clones)
    (hj : j < (p.layer_sizes.zip p.layer_sizes.tail).length) :
    ((mkNet p input cloneMasks daeMasks sdeDecMasks mcl).cloneLayer i j).Wexpr
        = ((mkNet p input cloneMasks daeMasks sdeDecMasks mcl).rawLayer j).Wexpr ∧
    ((mkNet p input cloneMasks daeMasks sdeDecMasks mcl).cloneLayer i j).bref
        = ((mkNet p input cloneMasks daeMasks sdeDecMasks mcl).rawLayer j).bref ∧
    ((mkNet p input cloneMasks daeMasks sdeDecMasks mcl).cloneLayer i j).drop_rate
        = (if j = 0 then 0.2 else 0.5) ∧
    (tinyNet.cloneLayer 0 0).output
        (Function.update storeZero ((tinyNet.rawLayer 0).Wexpr.baseId) onesMat)
        0 0 ≠
      (tinyNet.cloneLayer 0 0).output storeZero 0 0 := by
  obtain ⟨hw, hb, hd⟩ := mkNet_cloneLayer_spec p input cloneMasks daeMasks
    sdeDecMasks mcl i j hi hj
  obtain ⟨hw2, hb2, _⟩ := mkNet_rawLayer_spec p input cloneMasks daeMasks
    sdeDecMasks mcl j hj
  exact ⟨by rw [hw, hw2], by rw [hb, hb2], hd, tiny_clone_sensitive⟩

theorem clone_layers_share_raw_parameters_witness :
    (tinyNet.cloneLayer 0 0).Wexpr = (tinyNet.rawLayer 0).Wexpr ∧
    (tinyNet.cloneLayer 0 0).bref = (tinyNet.rawLayer 0).bref ∧
    (tinyNet.cloneLayer 0 0).drop_rate = (if (0 : ℕ) = 0 then 0.2 else 0.5) ∧
    (tinyNet.cloneLayer 0 0).output
        (Function.update storeZero ((tinyNet.rawLayer 0).Wexpr.baseId) onesMat)
        0 0 ≠
      (tinyNet.cloneLayer 0 0).output storeZero 0 0 :=
  clone_layers_share_raw_parameters tinyParams onesMat (fun _ _ => onesMat)
    (fun _ => onesMat) (fun _ => onesMat) zeroLoss 0 0 (by decide) (by decide)

/-- C6: a layer's effective weight is the stored weight when the dropout rate
is below 0.01 and the stored weight divided by `1 - rate` otherwise; in the
latter case the forward input is the given input times the layer's sampled
mask (whose binomial keep-probability parameter is `1 - rate`), while below
the threshold the input is used unchanged and the output does not depend on
the mask at all. -/
theorem hidden_layer_dropout_semantics (l : HLayer) (s : Store) :
    (l.drop_rate < 0.01 →
      l.W s = l.Wexpr.eval s ∧
      l.selfInput s = l.givenInput s ∧
      (∀ m : Mat, HLayer.output { l with mask := m } s = l.output s)) ∧
    (0.01 ≤ l.drop_rate →
      (∀ a c, l.W s a c = l.Wexpr.eval s a c / (1 - l.drop_rate)) ∧
      (∀ a c, l.selfInput s a c = l.givenInput s a c * l.mask a c) ∧
      dropKeepProb l.drop_rate = 1 - l.drop_rate) := by
  constructor
  · intro h
    refine ⟨by unfold HLayer.W; rw [if_pos h],
      by unfold HLayer.selfInput; rw [if_pos h], fun m => ?_⟩
    unfold HLayer.output HLayer.linear_output HLayer.selfInput HLayer.W
      HLayer.b
    simp only [if_pos h]
  · intro h
    have hn : ¬ l.drop_rate < 0.01 := not_lt.mpr h
    refine ⟨fun a c => ?_, fun a c => ?_, rfl⟩
    · unfold HLayer.W
      rw [if_neg hn, one_div, inv_mul_eq_div]
    · unfold HLayer.selfInput
      rw [if_neg hn]

/-- C7: for every hidden layer `i` except the last, both DAE decoders use
the symbolic transpose of the encoder's weight (which is raw layer `i`'s own
shared weight), the raw decoder's bias is a freshly allocated parameter
distinct from every MLP weight and bias, and the sde decoder reuses that
same bias parameter. -/
theorem dae_decoders_tied_and_share_bias
    (p : NetParams) (input : Mat) (cloneMasks : ℕ → ℕ → Mat)
    (daeMasks sdeDecMasks : ℕ → Mat) (mcl : HLayer → Store → (ℕ → ℤ) → ℝ)
    (net : Net) (hnet : net = mkNet p input cloneMasks daeMasks sdeDecMasks mcl)
    (i : ℕ) (hi : i + 1 < (p.layer_sizes.zip p.layer_sizes.tail).length) :
    ((net.raw_dae_layers.getD i default).1).Wexpr = (net.rawLayer i).Wexpr ∧
    ((net.raw_dae_layers.getD i default).1).bref = (net.rawLayer i).bref ∧
    (net.sde_dae_layers.getD i default).1 = (net.raw_dae_layers.getD i default).1 ∧
    (∀ s a c, WExpr.eval s ((net.raw_dae_layers.getD i default).2).Wexpr a c
        = WExpr.eval s ((net.raw_dae_layers.getD i default).1).Wexpr c a) ∧
    (∀ s a c, WExpr.eval s ((net.sde_dae_layers.getD i default).2).Wexpr a c
        = WExpr.eval s ((net.raw_dae_layers.getD i default).1).Wexpr c a) ∧
    ((net.sde_dae_layers.getD i default).2).bref
        = ((net.raw_dae_layers.getD i default).2).bref ∧
    (∀ j, j < net.layer_count →
      ((net.raw_dae_layers.getD i default).2).bref ≠ (net.rawLayer j).bref ∧
      ((net.raw_dae_layers.getD i default).2).bref ≠ (net.rawLayer j).Wexpr.baseId) := by
  subst hnet
  obtain ⟨hraw, hsde⟩ := mkNet_dae_getD p input cloneMasks daeMasks
    sdeDecMasks mcl i hi
  have hWi := (mkNet_rawLayer_spec p input cloneMasks daeMasks sdeDecMasks
    mcl i (by omega)).1
  have hL := mkNet_layer_count p input cloneMasks daeMasks sdeDecMasks mcl
  rw [hraw, hsde]
  refine ⟨rfl, rfl, rfl, ?_, ?_, rfl, ?_⟩
  · intro s a c
    show WExpr.eval s (.transpRef ((mkNet p input cloneMasks daeMasks sdeDecMasks
        mcl).rawLayer i).Wexpr.baseId) a c =
      WExpr.eval s ((mkNet p input cloneMasks daeMasks sdeDecMasks
        mcl).rawLayer i).Wexpr c a
    rw [hWi]
    rfl
  · intro s a c
    show WExpr.eval s (.transpRef ((mkNet p input cloneMasks daeMasks sdeDecMasks
        mcl).rawLayer i).Wexpr.baseId) a c =
      WExpr.eval s ((mkNet p input cloneMasks daeMasks sdeDecMasks
        mcl).rawLayer i).Wexpr c a
    rw [hWi]
    rfl
  · intro j hj
    have hj2 : j < (p.layer_sizes.zip p.layer_sizes.tail).length := by
      rw [hL] at hj; exact hj
    obtain ⟨hWj, hbj, _⟩ := mkNet_rawLayer_spec p input cloneMasks daeMasks
      sdeDecMasks mcl j hj2
    have hb : ((mkDAEunit (some sigmoid)
        (mkNet p input cloneMasks daeMasks sdeDecMasks mcl).mlp_layers
        (mkNet p input cloneMasks daeMasks sdeDecMasks mcl).layer_count
        daeMasks sdeDecMasks i).2.1).bref
        = 2 * (mkNet p input cloneMasks daeMasks sdeDecMasks mcl).layer_count
            + i := rfl
    rw [hb, hbj, hWj, hL]
    constructor
    · omega
    · show 2 * (p.layer_sizes.zip p.layer_sizes.tail).length + i ≠ 2 * j
      omega

theorem dae_decoders_tied_and_share_bias_witness :
    ((tinyNet2.raw_dae_layers.getD 0 default).1).Wexpr
        = (tinyNet2.rawLayer 0).Wexpr ∧
    WExpr.eval storeZero ((tinyNet2.raw_dae_layers.getD 0 default).2).Wexpr 0 1
        = WExpr.eval storeZero
            ((tinyNet2.raw_dae_layers.getD 0 default).1).Wexpr 1 0 ∧
    ((tinyNet2.sde_dae_layers.getD 0 default).2).bref
        = ((tinyNet2.raw_dae_layers.getD 0 default).2).bref ∧
    ((tinyNet2.raw_dae_layers.getD 0 default).2).bref
        ≠ (tinyNet2.rawLayer 0).bref := by
  have h := dae_decoders_tied_and_share_bias tinyParams2 onesMat
    (fun _ _ => onesMat) (fun _ => onesMat) (fun _ => onesMat) zeroLoss
    tinyNet2 rfl 0 (by decide)
  exact ⟨h.1, h.2.2.2.1 storeZero 0 1, h.2.2.2.2.2.1,
    (h.2.2.2.2.2.2 0 (by decide)).1⟩

theorem hidden_layer_dropout_semantics_witness :
    dropLayer.W storeZero 0 0 =
      dropLayer.Wexpr.eval storeZero 0 0 / (1 - dropLayer.drop_rate) ∧
    dropLayer.selfInput storeZero 0 0 =
      dropLayer.givenInput storeZero 0 0 * dropLayer.mask 0 0 ∧
    dropKeepProb dropLayer.drop_rate = 1 - dropLayer.drop_rate :=
  ⟨((hidden_layer_dropout_semantics dropLayer storeZero).2
      (by norm_num [dropLayer])).1 0 0,
   ((hidden_layer_dropout_semantics dropLayer storeZero).2
      (by norm_num [dropLayer])).2.1 0 0,
   ((hidden_layer_dropout_semantics dropLayer storeZero).2
      (by norm_num [dropLayer])).2.2⟩

end FrankeNet
